import Mathlib

/-!
Verification development for TransisiDB, a MySQL wire-protocol proxy that
rewrites INSERT/UPDATE statements to add converted "shadow" currency values.

The definitions below are shallow embeddings of the Go source:
* `internal/rounding` (engine.go): the decimal rounding engine, which computes
  in IEEE-754 binary64 (`float64`).  Binary64 values are modelled exactly as
  the rationals they denote; each Go floating-point operation is modelled as
  the exact rational operation followed by `roundDouble`, rounding to nearest
  with ties to even at 53 significant bits (valid on the normal, non-overflow
  range, which covers every computation in this development).
* `internal/parser` (parser.go) and `internal/proxy` (session.go): the SQL
  analyze/rewrite pipeline over the `xwb1989/sqlparser` AST fragment the code
  uses, together with that library's serialization (`sqlparser.String`) for
  the INSERT/UPDATE fragment.
* `pkg/protocol`: the MySQL packet framer (`ReadPacket`/`WritePacket`).
* `internal/proxy` (circuit_breaker.go, pool.go): the circuit breaker and
  the backend connection pool, modelled as sequential state machines.
* `internal/backfill` (worker.go): the backfill worker loop.

Rational arithmetic is written with the explicit helpers `qadd`, `qsub`,
`qmul`, `qdiv`, `qneg`, `qabs`, `qpowNat`, `qofInt` below.  They are the
exact field operations on `ℚ`, spelled out through `mkRat` so that every
definition in this file evaluates by kernel reduction (the ambient
`Rat.add`/`Rat.mul`/... are `@[irreducible]` here, which blocks `decide`).
-/

set_option maxRecDepth 100000

namespace TransisiDB

/-! ## Exact rational arithmetic helpers -/

/-- Exact rational negation. -/
def qneg (a : ℚ) : ℚ := mkRat (-a.num) a.den

/-- Exact rational addition. -/
def qadd (a b : ℚ) : ℚ :=
  mkRat (a.num * (b.den : ℤ) + b.num * (a.den : ℤ)) (a.den * b.den)

/-- Exact rational subtraction. -/
def qsub (a b : ℚ) : ℚ := qadd a (qneg b)

/-- Exact rational multiplication. -/
def qmul (a b : ℚ) : ℚ := mkRat (a.num * b.num) (a.den * b.den)

/-- Exact rational division (junk value `0` when the divisor is `0`, which
never arises in this development). -/
def qdiv (a b : ℚ) : ℚ :=
  if b.num < 0 then mkRat (-(a.num * (b.den : ℤ))) (a.den * b.num.natAbs)
  else mkRat (a.num * (b.den : ℤ)) (a.den * b.num.natAbs)

/-- Exact rational absolute value. -/
def qabs (a : ℚ) : ℚ := mkRat (a.num.natAbs : ℤ) a.den

/-- Exact rational power with a natural exponent. -/
def qpowNat (b : ℚ) : ℕ → ℚ
  | 0 => 1
  | n + 1 => qmul b (qpowNat b n)

/-- Embedding of an integer as a rational. -/
def qofInt (n : ℤ) : ℚ := mkRat n 1

/-- Floor of a rational as an integer (the denominator is positive, so
`Int.fdiv` of numerator by denominator is the floor). -/
def rfloor (q : ℚ) : ℤ := Int.fdiv q.num (q.den : ℤ)

/-- Ceiling of a rational as an integer. -/
def rceil (q : ℚ) : ℤ := -(rfloor (qneg q))

/-- Floor base-2 logarithm of a natural number (0 for inputs below 2),
by structural recursion on a fuel argument so that it evaluates by kernel
reduction. -/
def natLog2Aux : ℕ → ℕ → ℕ
  | 0, _ => 0
  | fuel + 1, n => if 2 ≤ n then natLog2Aux fuel (n / 2) + 1 else 0

/-- Floor base-2 logarithm of a natural number. -/
def natLog2 (n : ℕ) : ℕ := natLog2Aux n n

/-! ## Exact model of IEEE-754 binary64 ("float64") values and operations -/

/-- Two to an integer power, as a rational. -/
def qpow2 (z : ℤ) : ℚ :=
  if 0 ≤ z then qpowNat 2 z.toNat else qdiv 1 (qpowNat 2 (-z).toNat)

/-- Round a rational to the nearest integer, ties to even. -/
def roundHalfEvenInt (q : ℚ) : ℤ :=
  let f : ℤ := rfloor q
  let r : ℚ := qsub q (qofInt f)
  if r < mkRat 1 2 then f
  else if mkRat 1 2 < r then f + 1
  else if f % 2 = 0 then f else f + 1

/-- For `q > 0`, the unique `z` with `2^z ≤ q < 2^(z+1)`, computed from the
bit lengths of numerator and denominator. -/
def ratLog2 (q : ℚ) : ℤ :=
  let la : ℤ := (natLog2 q.num.natAbs : ℤ)
  let lb : ℤ := (natLog2 q.den : ℤ)
  let z0 : ℤ := la - lb
  if q < qpow2 z0 then z0 - 1 else z0

/-- Round an exact rational to the nearest IEEE-754 binary64 value
(round-to-nearest, ties-to-even, 53 significant bits).  Subnormal rounding
and overflow are not modelled; every value arising in this development lies
well inside the normal range, where this is exactly the IEEE semantics. -/
def roundDouble (q : ℚ) : ℚ :=
  if q = 0 then 0
  else
    let s : ℚ := if q < 0 then qneg 1 else 1
    let a : ℚ := qabs q
    let z : ℤ := ratLog2 a
    let n : ℤ := roundHalfEvenInt (qmul a (qpow2 (52 - z)))
    qmul (qmul s (qofInt n)) (qpow2 (z - 52))

/-- Go float64 multiplication: exact product, correctly rounded. -/
def fmul (x y : ℚ) : ℚ := roundDouble (qmul x y)

/-- Go float64 division: exact quotient, correctly rounded. -/
def fdiv (x y : ℚ) : ℚ := roundDouble (qdiv x y)

/-- Go float64 subtraction: exact difference, correctly rounded. -/
def fsub (x y : ℚ) : ℚ := roundDouble (qsub x y)

/-- Go `math.Floor` on a binary64 value: exact (the result is always
representable). -/
def goFloor (x : ℚ) : ℚ := qofInt (rfloor x)

/-- Go `math.Ceil` on a binary64 value: exact. -/
def goCeil (x : ℚ) : ℚ := qofInt (rceil x)

/-- Go `math.Trunc` (round toward zero) on a binary64 value: exact. -/
def goTrunc (x : ℚ) : ℚ :=
  if x < 0 then qofInt (-(rfloor (qneg x))) else qofInt (rfloor x)

/-- Go `math.Round` (round half away from zero) on a binary64 value: exact. -/
def goRound (x : ℚ) : ℚ :=
  if x < 0 then qofInt (-(rfloor (qadd (qneg x) (mkRat 1 2))))
  else qofInt (rfloor (qadd x (mkRat 1 2)))

/-- Go `int64(x)` conversion of a binary64 value: truncation toward zero. -/
def goInt64 (x : ℚ) : ℤ := if x < 0 then -(rfloor (qneg x)) else rfloor x

/-- Go `float64(n)` conversion of an `int64`: round to nearest, ties to even. -/
def goFloatOfInt (n : ℤ) : ℚ := roundDouble (qofInt n)

/-! ## Rounding engine (`internal/rounding/engine.go`)

`Strategy` is a Go string; the three recognised values are `BANKERS_ROUND`,
`ARITHMETIC_ROUND` and `NO_ROUND`. -/

inductive Strategy where
  | bankersRoundS : Strategy
  | arithmeticRoundS : Strategy
  | noRoundS : Strategy
  | otherS : String → Strategy
deriving DecidableEq, Repr

/-- The rounding engine: a strategy and a decimal precision (Go `int`). -/
structure Engine where
  strategy : Strategy
  precision : ℤ
deriving DecidableEq, Repr

/-- `math.Pow(10, float64(precision))` as used by the engine.  For the
precisions arising here (`0 ≤ p ≤ 15`), `10^p` is exactly representable in
binary64 and Go's `math.Pow` returns it exactly; `roundDouble` makes the
model total for all integer arguments. -/
def pow10F (p : ℤ) : ℚ :=
  roundDouble (if 0 ≤ p then qpowNat 10 p.toNat else qdiv 1 (qpowNat 10 (-p).toNat))

/-- `bankersRound` from engine.go: multiply by `10^precision`, compare the
fractional part with `0.5 ± 1e-9` (the Go constants `0.5-epsilon` and
`0.5+epsilon` are untyped constant expressions, evaluated exactly and
converted to binary64 at the comparison), and on a tie round toward the even
candidates by the parity of the floor. -/
def Engine.bankersRound (e : Engine) (value : ℚ) : ℚ :=
  let multiplier : ℚ := pow10F e.precision
  let adjusted : ℚ := fmul value multiplier
  let floor : ℚ := goFloor adjusted
  let ceil : ℚ := goCeil adjusted
  let fraction : ℚ := fsub adjusted floor
  let lowHalf : ℚ := roundDouble (qsub (mkRat 1 2) (mkRat 1 1000000000))
  let highHalf : ℚ := roundDouble (qadd (mkRat 1 2) (mkRat 1 1000000000))
  if fraction < lowHalf then fdiv floor multiplier
  else if highHalf < fraction then fdiv ceil multiplier
  else if goInt64 floor % 2 = 0 then fdiv floor multiplier
  else fdiv ceil multiplier

/-- `arithmeticRound` from engine.go: `math.Round(value*multiplier)/multiplier`. -/
def Engine.arithmeticRound (e : Engine) (value : ℚ) : ℚ :=
  let multiplier : ℚ := pow10F e.precision
  fdiv (goRound (fmul value multiplier)) multiplier

/-- `noRound` from engine.go: `math.Trunc(value*multiplier)/multiplier`. -/
def Engine.noRound (e : Engine) (value : ℚ) : ℚ :=
  let multiplier : ℚ := pow10F e.precision
  fdiv (goTrunc (fmul value multiplier)) multiplier

/-- `Round` from engine.go: dispatch on the strategy; unknown strategies use
banker's rounding. -/
def Engine.Round (e : Engine) (value : ℚ) : ℚ :=
  match e.strategy with
  | .bankersRoundS => e.bankersRound value
  | .arithmeticRoundS => e.arithmeticRound value
  | .noRoundS => e.noRound value
  | .otherS _ => e.bankersRound value

/-- `ConvertIDRtoIDN` from engine.go: convert both integers to float64,
divide, then round according to the strategy. -/
def Engine.ConvertIDRtoIDN (e : Engine) (idrValue : ℤ) ( ratio : ℤ) : ℚ :=
  e.Round (fdiv (goFloatOfInt idrValue) (goFloatOfInt ratio))

/-- Reference behaviour, from the spec's words: `s / r` rounded half-to-even
to `p` fractional digits, computed in exact rational arithmetic. -/
def specBankersRound (s : ℤ) (r : ℤ) (p : ℕ) : ℚ :=
  qdiv (qofInt (roundHalfEvenInt (qmul (qdiv (qofInt s) (qofInt r)) (qpowNat 10 p))))
    (qpowNat 10 p)

/-! ## Decimal formatting (Go `fmt.Sprintf` with a `%.Nf` verb)

Go formats a float64 by rounding its exact binary value to the requested
number of fractional digits; an exact tie is broken toward the even last
kept digit (strconv's `shouldRoundUp`).  The sign is printed separately,
then the integer part, then exactly `N` fractional digits. -/

/-- The decimal digit character for `d ∈ [0,9]`. -/
def digitChar (d : ℕ) : Char :=
  if d = 0 then '0' else if d = 1 then '1' else if d = 2 then '2'
  else if d = 3 then '3' else if d = 4 then '4' else if d = 5 then '5'
  else if d = 6 then '6' else if d = 7 then '7' else if d = 8 then '8' else '9'

/-- Decimal digits of a natural number, least significant first, by
structural recursion on a fuel argument. -/
def natDigitsRevAux : ℕ → ℕ → List Char
  | 0, _ => []
  | fuel + 1, n =>
    if n < 10 then [digitChar n] else digitChar (n % 10) :: natDigitsRevAux fuel (n / 10)

/-- Decimal rendering of a natural number (`0` prints as `"0"`). -/
def natToString (n : ℕ) : String := String.mk (natDigitsRevAux (n + 1) n).reverse

/-- Exactly `k` decimal digits of `n`, most significant first, left-padded
with zeros (the low `k` digits of `n`). -/
def fracDigits : ℕ → ℕ → List Char
  | 0, _ => []
  | k + 1, n => fracDigits k (n / 10) ++ [digitChar (n % 10)]

/-- Model of Go `fmt.Sprintf` with verb `%.pf` applied to the binary64 value
`q`: round `|q| * 10^p` to the nearest integer (ties to even) and print sign,
integer part, a dot, and exactly `p` fractional digits. -/
def fmtFixed (p : ℕ) (q : ℚ) : String :=
  let m : ℕ := (roundHalfEvenInt (qmul (qabs q) (qpowNat 10 p))).toNat
  (if q < 0 then "-" else "") ++ natToString (m / 10 ^ p) ++ "." ++
    String.mk (fracDigits p (m % 10 ^ p))

/-- `fmt.Sprintf` with the `%.4f` verb used by `rewriteInsert` and
`rewriteUpdate` in parser.go. -/
def fmtF4 (q : ℚ) : String := fmtFixed 4 q

/-- Number of characters strictly after the first dot of a string (the
fractional-digit count of a fixed-point literal). -/
def fracDigitCount (s : String) : ℕ :=
  ((s.data).dropWhile (fun c => c ≠ '.')).length - 1

/-- `fmt.Sscanf(s, "%f", ...)` for the numeric literal forms that occur in
the SQL statements in scope: an optional sign, an integer part, and an
optional fractional part; the exact decimal value is then rounded to
binary64.  Returns `none` when no digits can be scanned (in which case the
Go code leaves the scanned variable at `0`). -/
def goParseFloat (s : String) : Option ℚ :=
  let chars := s.data
  let (neg, rest) :=
    match chars with
    | '-' :: t => (true, t)
    | '+' :: t => (false, t)
    | t => (false, t)
  let intPart := rest.takeWhile (fun c => '0' ≤ c ∧ c ≤ '9')
  let rest2 := rest.dropWhile (fun c => '0' ≤ c ∧ c ≤ '9')
  let fracPart :=
    match rest2 with
    | '.' :: t => t.takeWhile (fun c => '0' ≤ c ∧ c ≤ '9')
    | _ => []
  if intPart.isEmpty ∧ fracPart.isEmpty then none
  else
    let digitsVal : List Char → ℕ := fun l => l.foldl (fun a c => 10 * a + (c.toNat - 48)) 0
    let ip : ℕ := digitsVal intPart
    let fp : ℕ := digitsVal fracPart
    let mag : ℚ := qadd (qofInt ip) (qdiv (qofInt fp) (qpowNat 10 fracPart.length))
    some (roundDouble (if neg then qneg mag else mag))

/-! ## SQL AST fragment (`xwb1989/sqlparser`) as used by parser.go

Only the constructors the rewriter inspects or rebuilds are modelled:
`SQLVal` (IntVal/FloatVal/StrVal), `NullVal`, `BoolVal`, and a catch-all
`other` carrying the expression's `sqlparser.String` rendering (the source
calls `sqlparser.String(expr)` on anything else).  Identifiers (`ColIdent`,
`TableName`) are carried as their rendered strings; the statements in scope
use plain unquoted identifiers, for which `formatID` prints the identifier
verbatim. -/

inductive Val where
  | intVal (raw : String)
  | floatVal (raw : String)
  | strVal (raw : String)
  | nullval
  | boolval (b : Bool)
  | other (printed : String)
deriving DecidableEq, Repr

/-- The `interface{}` values produced by `extractValue` in parser.go:
a Go string, a Go bool, or nil. -/
inductive GoVal where
  | gstr (s : String)
  | gbool (b : Bool)
  | gnil
deriving DecidableEq, Repr

/-- `extractValue` from parser.go: IntVal/StrVal/FloatVal yield the raw
bytes as a string, BoolVal yields a bool, NullVal yields nil, and any other
expression yields its `sqlparser.String` rendering. -/
def extractValue : Val → GoVal
  | .intVal s => .gstr s
  | .strVal s => .gstr s
  | .floatVal s => .gstr s
  | .nullval => .gnil
  | .boolval b => .gbool b
  | .other s => .gstr s

/-- `sqlparser` rendering of a value expression (`SQLVal.Format` and
friends): Int/Float values print their raw bytes, strings are quoted, NULL
prints as `null`, bools as `true`/`false`. -/
def serializeVal : Val → String
  | .intVal s => s
  | .floatVal s => s
  | .strVal s => "'" ++ s ++ "'"
  | .nullval => "null"
  | .boolval b => if b then "true" else "false"
  | .other s => s

/-- Comma-separated join, as `sqlparser`'s repeated `%s%v` with a `", "`
prefix after the first element. -/
def joinComma : List String → String
  | [] => ""
  | [s] => s
  | s :: t => s ++ ", " ++ joinComma t

/-- The `Rows` field of an INSERT: either a `VALUES` list or some other
row source (e.g. a SELECT), carried as its rendering. -/
inductive InsRows where
  | values (rs : List (List Val))
  | otherRows (printed : String)
deriving DecidableEq, Repr

/-- The `sqlparser.Insert` fragment used by the rewriter: action and
comments/ignore/partitions/onDup are carried as rendered strings (empty in
the statements in scope), the table as its rendered name, columns as their
rendered identifiers. -/
structure InsertStmt where
  action : String
  comments : String
  ignore : String
  table : String
  partitions : String
  columns : List String
  rows : InsRows
  onDup : String
deriving DecidableEq, Repr

/-- A `WHERE` clause modelled as a single comparison, which is the shape in
the statements in scope (`sqlparser` prints `" where %v"` and a comparison
as `"%v %s %v"`). -/
structure CmpExpr where
  left : String
  op : String
  right : Val
deriving DecidableEq, Repr

/-- The `sqlparser.Update` fragment used by the rewriter: `exprs` is the
ordered SET list of (column, value) pairs; `orderByLimit` carries the
rendering of any ORDER BY / LIMIT tail (empty in scope). -/
structure UpdateStmt where
  comments : String
  table : String
  exprs : List (String × Val)
  whereCl : Option CmpExpr
  orderByLimit : String
deriving DecidableEq, Repr

/-- `Columns.Format`: nothing for an empty column list, otherwise
`(c1, c2, ...)`. -/
def serializeColumns (cols : List String) : String :=
  match cols with
  | [] => ""
  | _ => "(" ++ joinComma cols ++ ")"

/-- `ValTuple.Format`: `(v1, v2, ...)`. -/
def serializeValTuple (vs : List Val) : String :=
  "(" ++ joinComma (vs.map serializeVal) ++ ")"

/-- `Values.Format`: `values (…), (…)`. -/
def serializeRows : InsRows → String
  | .values rs => "values " ++ joinComma (rs.map serializeValTuple)
  | .otherRows s => s

/-- `Insert.Format`: `%s %v%sinto %v%v%v %v%v` over action, comments,
ignore, table, partitions, columns, rows, onDup. -/
def serializeInsert (s : InsertStmt) : String :=
  s.action ++ " " ++ s.comments ++ s.ignore ++ "into " ++ s.table ++ s.partitions ++
    serializeColumns s.columns ++ " " ++ serializeRows s.rows ++ s.onDup

/-- `Where.Format`: empty when absent, otherwise `" where "` followed by the
comparison rendered as `left op right`. -/
def serializeWhere : Option CmpExpr → String
  | none => ""
  | some c => " where " ++ c.left ++ " " ++ c.op ++ " " ++ serializeVal c.right

/-- `UpdateExpr.Format`: `col = val`. -/
def serializeUpdateExpr (e : String × Val) : String :=
  e.1 ++ " = " ++ serializeVal e.2

/-- `Update.Format`: `update %v%v set %v%v%v%v` over comments, table
expressions, SET expressions, where, order by, limit. -/
def serializeUpdate (u : UpdateStmt) : String :=
  "update " ++ u.comments ++ u.table ++ " set " ++
    joinComma (u.exprs.map serializeUpdateExpr) ++ serializeWhere u.whereCl ++
    u.orderByLimit

/-! ## Configuration (`internal/config/config.go`) -/

/-- `ColumnConfig` from config.go.  All six YAML fields are present in the
source; the rewriter reads only `TargetColumn`. -/
structure ColumnConfig where
  sourceColumn : String
  targetColumn : String
  sourceType : String
  targetType : String
  roundingStrategy : String
  precision : ℤ
deriving DecidableEq, Repr

/-- `TableConfig` from config.go.  The Go `map[string]ColumnConfig` is
modelled as an association list with distinct keys, used only for lookup and
for picking an (unspecified) first element. -/
structure TableConfig where
  enabled : Bool
  columns : List (String × ColumnConfig)
deriving DecidableEq, Repr

/-- `TablesConfig` from config.go: table name to `TableConfig`. -/
def TablesConfig := List (String × TableConfig)

/-- The Go zero value of `TableConfig` (returned by a missing map lookup). -/
def TableConfig.zero : TableConfig := ⟨false, []⟩

/-! ## Parsed query and the analyze/rewrite pipeline (parser.go, session.go) -/

/-- `QueryType` from parser.go. -/
inductive QueryType where
  | unknownQ | selectQ | insertQ | updateQ | deleteQ
deriving DecidableEq, Repr

/-- The statement payload of a `ParsedQuery` (`sqlparser.Statement`). -/
inductive Stmt where
  | ins (s : InsertStmt)
  | upd (s : UpdateStmt)
  | otherStmt (printed : String)
deriving DecidableEq, Repr

/-- `ParsedQuery` from parser.go. -/
structure ParsedQuery where
  original : String
  typeQ : QueryType
  statement : Stmt
  tableName : String
  currencyColumns : List String
  values : List (String × GoVal)
  needsTransform : Bool
deriving DecidableEq, Repr

/-- `analyzeInsert` from parser.go: record the table name; when the table is
configured and enabled, collect the statement's currency columns (those with
a `ColumnConfig`) in column-list order, set `NeedsTransform` when any is
found, and extract the values of the FIRST row only (`rows[0]`) into the
`Values` map, keyed by column name. -/
def analyzeInsert (tcfg : TablesConfig) (stmt : InsertStmt) (original : String) :
    ParsedQuery :=
  let base : ParsedQuery :=
    { original := original, typeQ := .insertQ, statement := .ins stmt,
      tableName := stmt.table, currencyColumns := [], values := [],
      needsTransform := false }
  match List.lookup stmt.table tcfg with
  | none => base
  | some tc =>
    if ¬ tc.enabled then base
    else
      let currency := stmt.columns.filter (fun c => (List.lookup c tc.columns).isSome)
      let vals : List (String × GoVal) :=
        match stmt.rows with
        | .values (row :: _) =>
          if stmt.columns.isEmpty then []
          else (stmt.columns.zip row).map (fun p => (p.1, extractValue p.2))
        | _ => []
      { base with currencyColumns := currency, values := vals,
                  needsTransform := ¬ currency.isEmpty }

/-- `analyzeUpdate` from parser.go: record the table name; when configured
and enabled, collect the SET columns that have a `ColumnConfig`, in SET
order, together with their extracted values. -/
def analyzeUpdate (tcfg : TablesConfig) (stmt : UpdateStmt) (original : String) :
    ParsedQuery :=
  let base : ParsedQuery :=
    { original := original, typeQ := .updateQ, statement := .upd stmt,
      tableName := stmt.table, currencyColumns := [], values := [],
      needsTransform := false }
  match List.lookup stmt.table tcfg with
  | none => base
  | some tc =>
    if ¬ tc.enabled then base
    else
      let currency := (stmt.exprs.filter
        (fun e => (List.lookup e.1 tc.columns).isSome))
      { base with
          currencyColumns := currency.map (·.1),
          values := currency.map (fun e => (e.1, extractValue e.2)),
          needsTransform := ¬ currency.isEmpty }

/-- The conversion loop in `handleQuery` (session.go, lines 221–231): for
every extracted value that is a Go string, scan it with `Sscanf "%f"`
(leaving `0` on failure) and divide by the configured ratio in float64
arithmetic.  No rounding engine, precision or mode is involved. -/
def handleQueryConvert ( ratio : ℤ) (values : List (String × GoVal)) :
    List (String × ℚ) :=
  values.filterMap (fun p =>
    match p.2 with
    | .gstr s => some (p.1, fdiv ((goParseFloat s).getD 0) (goFloatOfInt ratio))
    | _ => none)

/-- `rewriteInsert` from parser.go: append one shadow column per currency
column (in discovery order) to the column list, and append to EVERY row the
same converted literals (`Sprintf "%.4f"` of the map entry), then
re-serialize the statement. -/
def rewriteInsert (stmt : InsertStmt) (pq : ParsedQuery) (tableConfig : TableConfig)
    (convertedValues : List (String × ℚ)) : String :=
  let newColumns := stmt.columns ++
    pq.currencyColumns.filterMap
      (fun c => (List.lookup c tableConfig.columns).map (·.targetColumn))
  let newRows :=
    match stmt.rows with
    | .values rs =>
      InsRows.values (rs.map (fun row =>
        row ++ pq.currencyColumns.filterMap (fun c =>
          (List.lookup c convertedValues).map
            (fun q => Val.floatVal (fmtF4 q)))))
    | r => r
  serializeInsert { stmt with columns := newColumns, rows := newRows }

/-- The assignments `rewriteUpdate` appends: one `target = literal` pair per
currency column that has both a column config and a converted value, with
the literal `Sprintf "%.4f"` of the converted value. -/
def appendedAssignments (pq : ParsedQuery) (tableConfig : TableConfig)
    (convertedValues : List (String × ℚ)) : List (String × Val) :=
  pq.currencyColumns.filterMap (fun c =>
    match List.lookup c tableConfig.columns, List.lookup c convertedValues with
    | some cc, some q => some (cc.targetColumn, Val.floatVal (fmtF4 q))
    | _, _ => none)

/-- `rewriteUpdate` from parser.go: append one `target = literal` assignment
per currency column that has both a column config and a converted value,
then re-serialize the statement (WHERE and the rest of the tail are
reprinted from the AST). -/
def rewriteUpdate (stmt : UpdateStmt) (pq : ParsedQuery) (tableConfig : TableConfig)
    (convertedValues : List (String × ℚ)) : String :=
  serializeUpdate
    { stmt with exprs := stmt.exprs ++ appendedAssignments pq tableConfig convertedValues }

/-- `RewriteForDualWrite` from parser.go: pass through unless
`NeedsTransform`; dispatch on the statement kind. -/
def RewriteForDualWrite (tcfg : TablesConfig) (pq : ParsedQuery)
    (convertedValues : List (String × ℚ)) : String :=
  if ¬ pq.needsTransform then pq.original
  else
    let tableConfig := (List.lookup pq.tableName tcfg).getD TableConfig.zero
    match pq.statement with
    | .ins s => rewriteInsert s pq tableConfig convertedValues
    | .upd s => rewriteUpdate s pq tableConfig convertedValues
    | .otherStmt _ => pq.original

/-- The rewrite path of `handleQuery` (session.go): convert the extracted
values with the configured ratio, then rewrite.  The result is the query
text forwarded to the backend (after the `COM_QUERY` command byte). -/
def handleQueryText (tcfg : TablesConfig) ( ratio : ℤ) (pq : ParsedQuery) : String :=
  if ¬ pq.needsTransform then pq.original
  else RewriteForDualWrite tcfg pq (handleQueryConvert ratio pq.values)

/-- The shadow literal the specification asks for (modelled from the spec's
words, for comparison with the code's behaviour): the rounding engine run
with the effective strategy and effective precision on `value / ratio`,
formatted with exactly the effective precision's number of fractional
digits. -/
def specEffectiveShadowLiteral (strat : Strategy) (effPrecision : ℕ)
    ( ratio : ℤ) (value : ℤ) : String :=
  fmtFixed effPrecision
    ((Engine.mk strat (effPrecision : ℤ)).ConvertIDRtoIDN value ratio)

/-! ## Wire framer (`pkg/protocol`, `ReadPacket`/`WritePacket`)

A byte stream is a list of `Fin 256`; reading consumes a prefix and returns
the rest. -/

/-- `Packet` from the protocol package (the redundant `Length` field is the
payload length). -/
structure Packet where
  sequenceID : Fin 256
  payload : List (Fin 256)
deriving DecidableEq, Repr

/-- `WritePacket`: error for payloads over `16777215` bytes, otherwise a
4-byte header (3-byte little-endian length, then the sequence id) followed
by the payload. -/
def WritePacket (sequenceID : Fin 256) (payload : List (Fin 256)) :
    Except String (List (Fin 256)) :=
  let length := payload.length
  if 16777215 < length then .error "packet too large"
  else
    .ok ([(⟨length % 256, by omega⟩ : Fin 256),
          ⟨length / 256 % 256, by omega⟩,
          ⟨length / 65536 % 256, by omega⟩,
          sequenceID] ++ payload)

/-- `ReadPacket`: read exactly 4 header bytes, decode the little-endian
length, then read exactly that many payload bytes; `none` models the
`io.ReadFull` error when the stream is too short. -/
def ReadPacket (stream : List (Fin 256)) : Option (Packet × List (Fin 256)) :=
  match stream with
  | b0 :: b1 :: b2 :: b3 :: rest =>
    let length := b0.val + 256 * b1.val + 65536 * b2.val
    if length ≤ rest.length then
      some (⟨b3, rest.take length⟩, rest.drop length)
    else none
  | _ => none

/-! ## Circuit breaker (`internal/proxy`, circuit_breaker.go)

Modelled as a sequential state machine: one `Call` is one critical-sectioned
`beforeRequest`, the protected function, and one `afterRequest`, with no
interleaving.  Clock values are integers (nanoseconds); `time.Since(t) > d`
becomes `d < now - t`. -/

/-- The three circuit-breaker states. -/
inductive CBState where
  | stClosed | stOpen | stHalfOpen
deriving DecidableEq, Repr

/-- `CircuitBreakerConfig`: failure threshold, cooldown, and the half-open
request budget.  All Go `int` values in scope are non-negative, so counters
and thresholds are naturals. -/
structure CircuitBreakerConfig where
  maxFailures : ℕ
  timeout : ℤ
  maxRequests : ℕ
deriving DecidableEq, Repr

/-- `DefaultCircuitBreakerConfig`: 5 failures, 30 s cooldown (in
nanoseconds), 3 half-open requests. -/
def DefaultCircuitBreakerConfig : CircuitBreakerConfig :=
  ⟨5, 30000000000, 3⟩

/-- `CircuitBreaker`: configuration, state, and counters. -/
structure CircuitBreaker where
  config : CircuitBreakerConfig
  state : CBState
  failures : ℕ
  lastFailureTime : ℤ
  lastStateChange : ℤ
  halfOpenRequests : ℕ
  totalRequests : ℕ
  totalSuccesses : ℕ
  totalFailures : ℕ
  totalRejections : ℕ
deriving DecidableEq, Repr

/-- `NewCircuitBreaker`: closed, all counters zero (the Go zero time is
modelled as clock 0). -/
def NewCircuitBreaker (config : CircuitBreakerConfig) (now : ℤ) : CircuitBreaker :=
  { config := config, state := .stClosed, failures := 0, lastFailureTime := 0,
    lastStateChange := now, halfOpenRequests := 0, totalRequests := 0,
    totalSuccesses := 0, totalFailures := 0, totalRejections := 0 }

/-- `setState`: transition and stamp `lastStateChange` only on an actual
change. -/
def CircuitBreaker.setState (cb : CircuitBreaker) (st : CBState) (now : ℤ) :
    CircuitBreaker :=
  if cb.state ≠ st then { cb with state := st, lastStateChange := now } else cb

/-- `beforeRequest`: count the request; admit when closed; when open, admit
(moving to half-open with a reset probe count) only after the cooldown has
passed since the last failure, else reject; when half-open, admit while the
probe budget is not exhausted, counting the probe. -/
def CircuitBreaker.beforeRequest (cb : CircuitBreaker) (now : ℤ) :
    CircuitBreaker × Bool :=
  let cb := { cb with totalRequests := cb.totalRequests + 1 }
  match cb.state with
  | .stClosed => (cb, true)
  | .stOpen =>
    if cb.config.timeout < now - cb.lastFailureTime then
      ({ cb.setState .stHalfOpen now with halfOpenRequests := 0 }, true)
    else
      ({ cb with totalRejections := cb.totalRejections + 1 }, false)
  | .stHalfOpen =>
    if cb.config.maxRequests ≤ cb.halfOpenRequests then
      ({ cb with totalRejections := cb.totalRejections + 1 }, false)
    else
      ({ cb with halfOpenRequests := cb.halfOpenRequests + 1 }, true)

/-- `onSuccess`: count; in the closed state reset the failure streak; in the
half-open state close the circuit once the probe count has reached the
budget. -/
def CircuitBreaker.onSuccess (cb : CircuitBreaker) (now : ℤ) : CircuitBreaker :=
  let cb := { cb with totalSuccesses := cb.totalSuccesses + 1 }
  match cb.state with
  | .stClosed => { cb with failures := 0 }
  | .stHalfOpen =>
    if cb.config.maxRequests ≤ cb.halfOpenRequests then
      { cb.setState .stClosed now with failures := 0, halfOpenRequests := 0 }
    else cb
  | .stOpen => cb

/-- `onFailure`: count, extend the failure streak, stamp the failure time;
open the circuit from closed once the streak reaches the threshold, and from
half-open on any failure. -/
def CircuitBreaker.onFailure (cb : CircuitBreaker) (now : ℤ) : CircuitBreaker :=
  let cb := { cb with totalFailures := cb.totalFailures + 1,
                      failures := cb.failures + 1, lastFailureTime := now }
  match cb.state with
  | .stClosed =>
    if cb.config.maxFailures ≤ cb.failures then cb.setState .stOpen now else cb
  | .stHalfOpen => cb.setState .stOpen now
  | .stOpen => cb

/-- `afterRequest`: dispatch on the protected function's error. -/
def CircuitBreaker.afterRequest (cb : CircuitBreaker) (errored : Bool) (now : ℤ) :
    CircuitBreaker :=
  if errored then cb.onFailure now else cb.onSuccess now

/-- Result of one `Call`: rejected without running the protected function,
or ran it with a success/failure outcome. -/
inductive CallResult where
  | rejected | okR | failedR
deriving DecidableEq, Repr

/-- `Call`: `beforeRequest`, then (only if admitted) the protected function
-- whose outcome is the parameter `errored` -- and `afterRequest`.
`tBefore`/`tAfter` are the clock readings at the two critical sections; a
`rejected` result means the protected function (the backend dial) never
ran. -/
def CircuitBreaker.Call (cb : CircuitBreaker) (errored : Bool) (tBefore tAfter : ℤ) :
    CircuitBreaker × CallResult :=
  let r := cb.beforeRequest tBefore
  if r.2 then
    (r.1.afterRequest errored tAfter, if errored then .failedR else .okR)
  else (r.1, .rejected)

/-- Iterate `n` successful calls at a fixed clock. -/
def CircuitBreaker.callsSucc (cb : CircuitBreaker) (t : ℤ) : ℕ → CircuitBreaker
  | 0 => cb
  | n + 1 => (((cb.Call false t t).1).callsSucc t n)

/-- The counter identity of `GetStats`: every request is counted exactly
once as a success, failure or rejection. -/
def CircuitBreaker.countersConsistent (cb : CircuitBreaker) : Prop :=
  cb.totalRequests = cb.totalSuccesses + cb.totalFailures + cb.totalRejections

/-! ## Backend pool (`internal/proxy`, pool.go)

Sequential model.  A connection's `healthy` field abstracts the outcome of
`IsHealthy` (the read-with-deadline probe); the `dialOk` parameter of
`Acquire` abstracts the outcome of the circuit-breaker-protected dial.
`openCount` is instrumentation, not a source field: it counts backend
connections dialed and not yet closed. -/

/-- `BackendConn`: the pool-visible state of one backend connection. -/
structure BackendConn where
  connectionID : ℕ
  inTransaction : Bool
  healthy : Bool
deriving DecidableEq, Repr

/-- `BackendPool`: the buffered idle channel (FIFO list, capacity
`poolSize`), the closed flag, the id counter and the metric counters. -/
structure BackendPool where
  capacity : ℕ
  idle : List BackendConn
  closed : Bool
  connCounter : ℕ
  totalCreated : ℕ
  totalAcquired : ℕ
  totalReleased : ℕ
  totalEvicted : ℕ
  openCount : ℕ
deriving DecidableEq, Repr

/-- `NewBackendPool`: empty idle channel of capacity `poolSize`. -/
def NewBackendPool (poolSize : ℕ) : BackendPool :=
  ⟨poolSize, [], false, 0, 0, 0, 0, 0, 0⟩

/-- Result of `Acquire`: a leased connection, or one of the two error
returns of the source (`pool is closed`, or the dial/breaker error from
`createConnection`).  There is no pool-exhausted outcome. -/
inductive AcquireResult where
  | acquired (c : BackendConn)
  | errClosed
  | errDial
deriving DecidableEq, Repr

/-- `createConnection`: dial through the circuit breaker (outcome abstracted
by `dialOk`); on success allocate the next connection id. -/
def BackendPool.createConnection (bp : BackendPool) (dialOk : Bool) :
    BackendPool × AcquireResult :=
  if dialOk then
    ({ bp with connCounter := bp.connCounter + 1, totalCreated := bp.totalCreated + 1,
               openCount := bp.openCount + 1 },
     .acquired ⟨bp.connCounter + 1, false, true⟩)
  else (bp, .errDial)

/-- `Acquire`: error when closed; otherwise take the first idle connection
if any -- reusing it when healthy, else closing it and falling through --
and when no idle connection is available, always dial a new one.  There is
no blocking and no bounded wait: the channel receive is a non-blocking
`select` with a `default` branch. -/
def BackendPool.Acquire (bp : BackendPool) (dialOk : Bool) :
    BackendPool × AcquireResult :=
  if bp.closed then (bp, .errClosed)
  else
    match bp.idle with
    | c :: rest =>
      if c.healthy then
        ({ bp with idle := rest, totalAcquired := bp.totalAcquired + 1 }, .acquired c)
      else
        BackendPool.createConnection
          { bp with idle := rest, totalEvicted := bp.totalEvicted + 1,
                    openCount := bp.openCount - 1 } dialOk
    | [] => bp.createConnection dialOk

/-- `Reset` on a connection: clears the transaction flag (always returns
nil in the source). -/
def BackendConn.reset (c : BackendConn) : BackendConn :=
  { c with inTransaction := false }

/-- `Release`: close the connection when the pool is closed or the
connection is mid-transaction; otherwise reset it and return it to the idle
channel if there is room (non-blocking send), else close it. -/
def BackendPool.Release (bp : BackendPool) (c : BackendConn) : BackendPool :=
  if bp.closed then { bp with openCount := bp.openCount - 1 }
  else if c.inTransaction then { bp with openCount := bp.openCount - 1 }
  else if bp.idle.length < bp.capacity then
    { bp with idle := bp.idle ++ [c.reset], totalReleased := bp.totalReleased + 1 }
  else { bp with openCount := bp.openCount - 1 }

/-- One pool operation, for stating invariants over arbitrary histories. -/
inductive PoolOp where
  | opAcquire (dialOk : Bool)
  | opRelease (c : BackendConn)
deriving DecidableEq, Repr

/-- Run a history of pool operations. -/
def BackendPool.run (bp : BackendPool) : List PoolOp → BackendPool
  | [] => bp
  | .opAcquire d :: t => ((bp.Acquire d).1).run t
  | .opRelease c :: t => (bp.Release c).run t

/-! ## Backfill worker (`internal/backfill`, worker.go)

Sequential model of `Start`/`processBatch` for one table.  A row's
`failing` field abstracts "the UPDATE for this row's id returns an error";
`target` is the shadow column (`NULL` = `none`).  Control channels and
sleeps are not modelled; the loop takes a fuel argument. -/

/-- One table row as seen by the worker. -/
structure BRow where
  rid : ℤ
  value : ℤ
  target : Option ℚ
  failing : Bool
deriving DecidableEq, Repr

/-- `BackfillConfig` from config.go (time-valued fields carried but unused
by the sequential model). -/
structure BackfillConfig where
  enabled : Bool
  batchSize : ℕ
  sleepIntervalMs : ℕ
  maxCPUPercent : ℕ
  retryAttempts : ℕ
  retryBackoffMs : ℕ
deriving DecidableEq, Repr

/-- Backfill progress counters and status (progress.go). -/
inductive BStatus where
  | statusPending | statusRunning | statusPaused | statusCompleted | statusFailed
deriving DecidableEq, Repr

/-- The counter part of `Progress` (progress.go). -/
structure BProgress where
  totalRows : ℤ
  completedRows : ℤ
  errors : ℤ
  status : BStatus
deriving DecidableEq, Repr

/-- `UPDATE <table> SET <target> = ? WHERE id = ?` on the in-memory table. -/
def updateRow (db : List BRow) (rid : ℤ) (v : ℚ) : List BRow :=
  db.map (fun r => if r.rid = rid then { r with target := some v } else r)

/-- The row loop of `processBatch`: convert and update each selected row in
order; the first failing UPDATE aborts the batch, returning the rows updated
so far and the error flag. -/
def processRows (eng : Engine) ( ratio : ℤ) :
    List BRow → List BRow → ℕ → List BRow × ℕ × Bool
  | db, [], processed => (db, processed, false)
  | db, r :: rest, processed =>
    if r.failing then (db, processed, true)
    else
      processRows eng ratio
        (updateRow db r.rid (eng.ConvertIDRtoIDN r.value ratio)) rest (processed + 1)

/-- `processBatch`: select up to `batchSize` rows whose shadow column is
NULL (in table order), then run the row loop. -/
def processBatch (eng : Engine) ( ratio : ℤ) (cfg : BackfillConfig)
    (db : List BRow) : List BRow × ℕ × Bool :=
  processRows eng ratio db ((db.filter (fun r => r.target.isNone)).take cfg.batchSize) 0

/-- The batch loop of `Start` (worker.go): on a batch error increment
`errors` and retry the whole batch while `errors < retryAttempts`
(`shouldRetry`), else fail the job; on an empty batch complete; otherwise
add the processed count and continue.  `none` = fuel exhausted. -/
def startLoop (eng : Engine) ( ratio : ℤ) (cfg : BackfillConfig) :
    ℕ → List BRow → BProgress → Option (Except String (List BRow × BProgress))
  | 0, _, _ => none
  | fuel + 1, db, prog =>
    let (db', processed, errored) := processBatch eng ratio cfg db
    if errored then
      let prog' := { prog with errors := prog.errors + 1 }
      if prog'.errors < (cfg.retryAttempts : ℤ) then startLoop eng ratio cfg fuel db' prog'
      else some (.error "batch processing failed")
    else if processed = 0 then
      some (.ok (db', { prog with status := .statusCompleted }))
    else
      startLoop eng ratio cfg fuel db'
        { prog with completedRows := prog.completedRows + (processed : ℤ) }

/-- Iterate `n` failing calls at a fixed clock. -/
def CircuitBreaker.callsFail (cb : CircuitBreaker) (t : ℤ) : ℕ → CircuitBreaker
  | 0 => cb
  | n + 1 => (((cb.Call true t t).1).callsFail t n)

/-! ## Concrete instances used by the theorems below

The running scenario of the spec (§8): table `orders`, source column
`total_amount`, shadow column `total_amount_idn`, conversion ratio 1000. -/

/-- Column rule for `total_amount` (no per-column override set). -/
def colTotalAmount : ColumnConfig :=
  ⟨"total_amount", "total_amount_idn", "BIGINT", "DECIMAL(20,4)", "", 0⟩

/-- Table rule for `orders`, enabled. -/
def ordersTable : TableConfig := ⟨true, [("total_amount", colTotalAmount)]⟩

/-- Tables configuration with only `orders`. -/
def demoTables : TablesConfig := [("orders", ordersTable)]

/-- AST of `INSERT INTO orders (customer_id, total_amount) VALUES
(1, 500500), (2, 501500), (3, 502500)` (spec §8, scenario S3). -/
def insMultiRow : InsertStmt :=
  ⟨"insert", "", "", "orders", "", ["customer_id", "total_amount"],
    .values [[.intVal "1", .intVal "500500"],
             [.intVal "2", .intVal "501500"],
             [.intVal "3", .intVal "502500"]], ""⟩

/-- The analyzed multi-row INSERT. -/
def pqMultiRow : ParsedQuery :=
  analyzeInsert demoTables insMultiRow
    "INSERT INTO orders (customer_id, total_amount) VALUES (1, 500500), (2, 501500), (3, 502500)"

/-- AST of `INSERT INTO orders (customer_id, total_amount) VALUES (1, NULL)`
(spec §8, scenario S5). -/
def insNullRow : InsertStmt :=
  ⟨"insert", "", "", "orders", "", ["customer_id", "total_amount"],
    .values [[.intVal "1", .nullval]], ""⟩

/-- The analyzed NULL-valued INSERT. -/
def pqNullRow : ParsedQuery :=
  analyzeInsert demoTables insNullRow
    "INSERT INTO orders (customer_id, total_amount) VALUES (1, NULL)"

/-- AST of `INSERT INTO orders (total_amount) VALUES (5)`, used with a
global precision of 2 to separate the configured precision from the
hard-coded `%.4f`. -/
def insSmall : InsertStmt :=
  ⟨"insert", "", "", "orders", "", ["total_amount"], .values [[.intVal "5"]], ""⟩

/-- The analyzed single-value INSERT. -/
def pqSmall : ParsedQuery :=
  analyzeInsert demoTables insSmall "INSERT INTO orders (total_amount) VALUES (5)"

/-- AST of `UPDATE orders SET total_amount = 750000 WHERE id = 123`
(spec §8, scenario S2). -/
def updDemo : UpdateStmt :=
  ⟨"", "orders", [("total_amount", .intVal "750000")],
    some ⟨"id", "=", .intVal "123"⟩, ""⟩

/-- The analyzed UPDATE. -/
def pqUpdDemo : ParsedQuery :=
  analyzeUpdate demoTables updDemo
    "UPDATE orders SET total_amount = 750000 WHERE id = 123"

/-- A circuit breaker that has just been opened by 5 consecutive failures at
clock 0 (reached from `NewCircuitBreaker` by five failing calls). -/
def cbOpened : CircuitBreaker :=
  (NewCircuitBreaker DefaultCircuitBreakerConfig 0).callsFail 0 5

/-- A clock value 31 s after the failures: the 30 s cooldown has elapsed. -/
def tAfterCooldown : ℤ := 31000000000

/-- Backfill configuration with `retry_attempts = 2` and `batch_size = 100`. -/
def backfillCfgDemo : BackfillConfig := ⟨true, 100, 100, 80, 2, 500⟩

/-- One pending row whose UPDATE always fails. -/
def dbPoisoned : List BRow := [⟨1, 500000, none, true⟩]

/-- A running progress with no errors. -/
def progRunning : BProgress := ⟨1, 0, 0, .statusRunning⟩

/-- The engine configured as in the spec's running scenario. -/
def engineDemo : Engine := ⟨.bankersRoundS, 4⟩

/-! # Theorems -/

/-- C1 (counterexample).  The claim asserts the engine's conversion equals
`s / r` rounded half-to-even to `p` fractional digits in exact rational
arithmetic for all `s ∈ [-10^15, 10^15]`, `r ∈ {10, 100, 1000, 10000}`,
`p ∈ [0, 10]`.  At `s = 1`, `r = 10`, `p = 1` the exact result is `1/10`,
which is not a binary64 value: the float64-based engine returns the nearest
binary64 to `0.1` instead, so the claimed equality fails. -/
theorem C1_float_engine_not_exact :
    (Engine.mk .bankersRoundS 1).ConvertIDRtoIDN 1 10 ≠ specBankersRound 1 10 1 ∧
    specBankersRound 1 10 1 = mkRat 1 10 ∧
    (Engine.mk .bankersRoundS 1).ConvertIDRtoIDN 1 10 =
      mkRat 3602879701896397 36028797018963968 := by
  refine ⟨by decide, by decide, by decide⟩

/-- C1 (amended).  The engine computes in binary64, so its result equals the
exact rational rounding only when that value is representable; the claim's
named precision-0 halfway cases are representable and do hold: 0.5, 1.5,
2.5, -0.5 round to 0, 2, 2, 0, matching exact rational banker's rounding. -/
theorem C1_halfway_cases_tie_to_even :
    ((Engine.mk .bankersRoundS 0).ConvertIDRtoIDN 5 10 = 0 ∧
      specBankersRound 5 10 0 = 0) ∧
    ((Engine.mk .bankersRoundS 0).ConvertIDRtoIDN 15 10 = 2 ∧
      specBankersRound 15 10 0 = 2) ∧
    ((Engine.mk .bankersRoundS 0).ConvertIDRtoIDN 25 10 = 2 ∧
      specBankersRound 25 10 0 = 2) ∧
    ((Engine.mk .bankersRoundS 0).ConvertIDRtoIDN (-5) 10 = 0 ∧
      specBankersRound (-5) 10 0 = 0) := by
  exact ⟨⟨by decide, by decide⟩, ⟨by decide, by decide⟩,
    ⟨by decide, by decide⟩, ⟨by decide, by decide⟩⟩

/-- No decimal digit character is the dot. -/
theorem digitChar_ne_dot (d : ℕ) : digitChar d ≠ '.' := by
  unfold digitChar
  split_ifs <;> decide

/-- The characters produced by `natDigitsRevAux` are digits, never a dot. -/
theorem natDigitsRevAux_ne_dot :
    ∀ (fuel n : ℕ), ∀ c ∈ natDigitsRevAux fuel n, c ≠ '.' := by
  intro fuel
  induction fuel with
  | zero => intro n c hc; simp [natDigitsRevAux] at hc
  | succ f ih =>
    intro n c hc
    unfold natDigitsRevAux at hc
    split at hc
    · simp at hc; subst hc; exact digitChar_ne_dot n
    · rcases List.mem_cons.mp hc with h | h
      · subst h; exact digitChar_ne_dot (n % 10)
      · exact ih (n / 10) c h

/-- The rendering of a natural number contains no dot. -/
theorem natToString_ne_dot (n : ℕ) : ∀ c ∈ (natToString n).data, c ≠ '.' := by
  intro c hc
  have : c ∈ natDigitsRevAux (n + 1) n := List.mem_reverse.mp hc
  exact natDigitsRevAux_ne_dot (n + 1) n c this

/-- `fracDigits k n` always has exactly `k` characters. -/
theorem fracDigits_length : ∀ (k n : ℕ), (fracDigits k n).length = k := by
  intro k
  induction k with
  | zero => intro n; rfl
  | succ m ih => intro n; simp [fracDigits, ih]

/-- Dropping non-dot characters of a dot-free list stops exactly at the
appended dot. -/
theorem dropWhile_to_dot :
    ∀ (l1 l2 : List Char), (∀ c ∈ l1, c ≠ '.') →
      List.dropWhile (fun c => c ≠ '.') (l1 ++ '.' :: l2) = '.' :: l2 := by
  intro l1
  induction l1 with
  | nil => intro l2 _; simp [List.dropWhile]
  | cons c t ih =>
    intro l2 h
    have hc : c ≠ '.' := h c (List.mem_cons_self c t)
    simp only [List.cons_append, List.dropWhile_cons]
    rw [if_pos (by simpa using hc)]
    exact ih l2 (fun x hx => h x (List.mem_cons_of_mem c hx))

/-- A fixed-point literal produced by `fmtFixed p` has exactly `p`
fractional digits, whatever the value and whatever precision the
configuration asked for. -/
theorem fracDigitCount_fmtFixed (p : ℕ) (q : ℚ) :
    fracDigitCount (fmtFixed p q) = p := by
  unfold fmtFixed fracDigitCount
  set m : ℕ := (roundHalfEvenInt (qmul (qabs q) (qpowNat 10 p))).toNat with hm
  have hdata :
      (((if q < 0 then "-" else "") ++ natToString (m / 10 ^ p) ++ "." ++
        String.mk (fracDigits p (m % 10 ^ p))).data) =
      ((if q < 0 then "-" else "").data ++ (natToString (m / 10 ^ p)).data) ++
        '.' :: fracDigits p (m % 10 ^ p) := by
    show ((if q < 0 then "-" else "").data ++ (natToString (m / 10 ^ p)).data ++
      ['.'] ++ fracDigits p (m % 10 ^ p)) = _
    simp [List.append_assoc]
  rw [hdata, dropWhile_to_dot]
  · simp [fracDigits_length]
  · intro c hc
    rcases List.mem_append.mp hc with h | h
    · split_ifs at h <;> simp at h
      subst h; decide
    · exact natToString_ne_dot _ c h

/-- The conversion map built by `handleQuery` sends a column whose extracted
value is the string `s` to `float64(s) / float64(ratio)` -- a bare float64
division, with no rounding engine, no precision and no mode. -/
theorem lookup_handleQueryConvert :
    ∀ (r : ℤ) (values : List (String × GoVal)) (col s : String),
      List.lookup col values = some (.gstr s) →
      List.lookup col (handleQueryConvert r values) =
        some (fdiv ((goParseFloat s).getD 0) (goFloatOfInt r)) := by
  intro r values
  induction values with
  | nil => intro col s h; simp [List.lookup] at h
  | cons head t ih =>
    intro col s h
    obtain ⟨k, v⟩ := head
    by_cases hk : col = k
    · subst hk
      rw [List.lookup_cons_self] at h
      injection h with h
      subst h
      simp [handleQueryConvert, List.filterMap_cons, List.lookup]
    · have hbeq : (col == k) = false := beq_eq_false_iff_ne.mpr hk
      rw [List.lookup, hbeq] at h
      cases v with
      | gstr s' =>
        simpa [handleQueryConvert, List.filterMap_cons, List.lookup, hbeq]
          using ih col s h
      | gbool b =>
        simpa [handleQueryConvert, List.filterMap_cons] using ih col s h
      | gnil =>
        simpa [handleQueryConvert, List.filterMap_cons] using ih col s h

/-- C2 (counterexample).  With the `orders` rule, ratio 1000, global
precision 2 (and no per-column override, so the effective precision is 2)
and mode `BANKERS_ROUND`, the INSERT value `5` should produce the literal
`0.00` (the engine at precision 2 ties `0.005` to the even `0.00`, printed
with 2 fractional digits); the proxy instead emits `0.0050`: it divides
without any engine call and always prints 4 fractional digits. -/
theorem C2_shadow_literal_ignores_config :
    List.lookup "total_amount" (handleQueryConvert 1000 pqSmall.values) =
      some (fdiv ((goParseFloat "5").getD 0) (goFloatOfInt 1000)) ∧
    fmtF4 (fdiv ((goParseFloat "5").getD 0) (goFloatOfInt 1000)) = "0.0050" ∧
    handleQueryText demoTables 1000 pqSmall =
      "insert into orders(total_amount, total_amount_idn) values (5, 0.0050)" ∧
    specEffectiveShadowLiteral .bankersRoundS 2 1000 5 = "0.00" ∧
    ("0.0050" : String) ≠ "0.00" := by
  refine ⟨by decide, by decide, by decide, by decide, by decide⟩

/-- C2 (amended).  Each appended shadow literal is
`Sprintf "%.4f" (float64(value) / float64(ratio))`: the conversion map holds
the bare float64 quotient of the extracted value and the ratio (first
conjunct), and the emitted literal always has exactly 4 fractional digits,
regardless of the configured precision, mode or per-column overrides
(second conjunct). -/
theorem C2_shadow_literal_is_f4_of_division :
    (∀ (r : ℤ) (values : List (String × GoVal)) (col s : String),
      List.lookup col values = some (.gstr s) →
      List.lookup col (handleQueryConvert r values) =
        some (fdiv ((goParseFloat s).getD 0) (goFloatOfInt r))) ∧
    (∀ (p : ℕ) (q : ℚ), fracDigitCount (fmtFixed p q) = p) := by
  exact ⟨lookup_handleQueryConvert, fracDigitCount_fmtFixed⟩

/-- C2 witness: the amended statement applied to the concrete single-value
INSERT and to the `%.4f` literal of its converted value. -/
theorem C2_shadow_literal_is_f4_of_division_witness :
    List.lookup "total_amount" (handleQueryConvert 1000 pqSmall.values) =
      some (fdiv ((goParseFloat "5").getD 0) (goFloatOfInt 1000)) ∧
    fracDigitCount (fmtFixed 4 (fdiv ((goParseFloat "5").getD 0) (goFloatOfInt 1000))) = 4 := by
  exact ⟨C2_shadow_literal_is_f4_of_division.1 1000 pqSmall.values "total_amount" "5"
      (by decide),
    C2_shadow_literal_is_f4_of_division.2 4 _⟩

/-- C3 (code evaluated at the failing input).  For the multi-row INSERT of
spec scenario S3, the code extracts values from the FIRST row only and
appends that row's converted literal `500.5000` to every row: rows 2 and 3
receive `500.5000` although their own values `501500` and `502500` convert
to `501.5000` and `502.5000`. -/
theorem C3_all_rows_get_first_rows_literal :
    handleQueryText demoTables 1000 pqMultiRow =
      "insert into orders(customer_id, total_amount, total_amount_idn) values (1, 500500, 500.5000), (2, 501500, 500.5000), (3, 502500, 500.5000)" ∧
    fmtF4 (fdiv ((goParseFloat "501500").getD 0) (goFloatOfInt 1000)) = "501.5000" ∧
    fmtF4 (fdiv ((goParseFloat "502500").getD 0) (goFloatOfInt 1000)) = "502.5000" ∧
    ("500.5000" : String) ≠ "501.5000" := by
  refine ⟨by decide, by decide, by decide, by decide⟩

/-- C4 (code evaluated at the failing input).  For spec scenario S5
(`INSERT ... VALUES (1, NULL)` on a configured table), the claim says the
statement is forwarded unchanged.  The code marks it for transformation,
appends the shadow COLUMN `total_amount_idn` but -- the NULL value having
produced no conversion entry -- appends no shadow VALUE, emitting a
statement with 3 columns and 2 values instead of the original bytes. -/
theorem C4_null_insert_not_forwarded_unchanged :
    pqNullRow.needsTransform = true ∧
    handleQueryText demoTables 1000 pqNullRow =
      "insert into orders(customer_id, total_amount, total_amount_idn) values (1, null)" ∧
    handleQueryText demoTables 1000 pqNullRow ≠ pqNullRow.original := by
  refine ⟨by decide, by decide, by decide⟩

/-- C5 (counterexample).  For `UPDATE orders SET total_amount = 750000
WHERE id = 123`, the rewritten statement is re-serialized from the AST with
lowercase keywords: the emitted bytes end in `where id = 123`, not in the
input's `WHERE id = 123`, so the WHERE clause and everything after it are
not reproduced byte-for-byte. -/
theorem C5_where_clause_not_byte_identical :
    handleQueryText demoTables 1000 pqUpdDemo =
      "update orders set total_amount = 750000, total_amount_idn = 750.0000 where id = 123" ∧
    List.isSuffixOf ("WHERE id = 123".data) (pqUpdDemo.original.data) = true ∧
    List.isSuffixOf ("WHERE id = 123".data)
      ((handleQueryText demoTables 1000 pqUpdDemo).data) = false := by
  refine ⟨by decide, by decide, by decide⟩

/-- `joinComma` over a concatenation of two non-empty lists splits at a
`", "` separator. -/
theorem joinComma_append :
    ∀ (a b : List String), a ≠ [] → b ≠ [] →
      joinComma (a ++ b) = joinComma a ++ ", " ++ joinComma b := by
  intro a
  induction a with
  | nil => intro b ha _; exact absurd rfl ha
  | cons s t ih =>
    intro b _ hb
    cases t with
    | nil =>
      cases b with
      | nil => exact absurd rfl hb
      | cons x xs => simp [joinComma]
    | cons u v =>
      have : joinComma ((s :: u :: v) ++ b) = s ++ ", " ++ joinComma ((u :: v) ++ b) := by
        simp [joinComma]
      rw [this, ih b (by simp) hb]
      cases b with
      | nil => exact absurd rfl hb
      | cons x xs => simp [joinComma, String.append_assoc]

/-- C5 (amended).  The rewritten UPDATE is re-serialized from the AST:
`update <table> set <original assignments in order>, <appended assignments>
<where clause> <tail>`, where the where clause and tail are the serializer's
rendering of the unchanged AST fields (normalized keywords and spacing), not
the input bytes. -/
theorem C5_update_rewrite_shape (stmt : UpdateStmt) (pq : ParsedQuery)
    (tc : TableConfig) (conv : List (String × ℚ))
    (h1 : stmt.exprs ≠ []) (h2 : appendedAssignments pq tc conv ≠ []) :
    rewriteUpdate stmt pq tc conv =
      "update " ++ stmt.comments ++ stmt.table ++ " set " ++
        joinComma (stmt.exprs.map serializeUpdateExpr) ++ ", " ++
        joinComma ((appendedAssignments pq tc conv).map serializeUpdateExpr) ++
        serializeWhere stmt.whereCl ++ stmt.orderByLimit := by
  unfold rewriteUpdate serializeUpdate
  rw [List.map_append,
    joinComma_append _ _ (by simpa using h1) (by simpa using h2)]
  simp [String.append_assoc]

/-- C5 witness: the amended shape at the concrete UPDATE of scenario S2. -/
theorem C5_update_rewrite_shape_witness :
    rewriteUpdate updDemo pqUpdDemo ordersTable
        (handleQueryConvert 1000 pqUpdDemo.values) =
      "update " ++ updDemo.comments ++ updDemo.table ++ " set " ++
        joinComma (updDemo.exprs.map serializeUpdateExpr) ++ ", " ++
        joinComma ((appendedAssignments pqUpdDemo ordersTable
          (handleQueryConvert 1000 pqUpdDemo.values)).map serializeUpdateExpr) ++
        serializeWhere updDemo.whereCl ++ updDemo.orderByLimit := by
  exact C5_update_rewrite_shape updDemo pqUpdDemo ordersTable
    (handleQueryConvert 1000 pqUpdDemo.values) (by decide) (by decide)

/-- A successful half-open call below the probe budget stays half-open and
counts the probe; configuration is untouched. -/
theorem cb_halfOpen_succ_stay (cb : CircuitBreaker) (t : ℤ)
    (hst : cb.state = .stHalfOpen)
    (hlt : cb.halfOpenRequests + 1 < cb.config.maxRequests) :
    ((cb.Call false t t).1).state = .stHalfOpen ∧
    ((cb.Call false t t).1).halfOpenRequests = cb.halfOpenRequests + 1 ∧
    ((cb.Call false t t).1).config = cb.config := by
  have h1 : ¬ cb.config.maxRequests ≤ cb.halfOpenRequests := by omega
  have h2 : ¬ cb.config.maxRequests ≤ cb.halfOpenRequests + 1 := by omega
  unfold CircuitBreaker.Call CircuitBreaker.beforeRequest
    CircuitBreaker.afterRequest CircuitBreaker.onSuccess CircuitBreaker.setState
  simp [hst, h1, h2]

/-- A successful half-open call that brings the probe count to the budget
closes the circuit. -/
theorem cb_halfOpen_succ_close (cb : CircuitBreaker) (t : ℤ)
    (hst : cb.state = .stHalfOpen)
    (hadm : cb.halfOpenRequests < cb.config.maxRequests)
    (heq : cb.config.maxRequests ≤ cb.halfOpenRequests + 1) :
    ((cb.Call false t t).1).state = .stClosed := by
  have h1 : ¬ cb.config.maxRequests ≤ cb.halfOpenRequests := by omega
  unfold CircuitBreaker.Call CircuitBreaker.beforeRequest
    CircuitBreaker.afterRequest CircuitBreaker.onSuccess CircuitBreaker.setState
  simp [hst, h1, heq]

/-- From the half-open state, exactly the calls that bring the counted
probes up to the budget close the circuit. -/
theorem cb_halfOpen_succ_closes :
    ∀ (n : ℕ) (cb : CircuitBreaker) (t : ℤ), cb.state = .stHalfOpen →
      cb.halfOpenRequests + n = cb.config.maxRequests → 1 ≤ n →
      (cb.callsSucc t n).state = .stClosed := by
  intro n
  induction n with
  | zero => intro cb t _ _ h1; omega
  | succ m ih =>
    intro cb t hst hsum _
    show (((cb.Call false t t).1).callsSucc t m).state = .stClosed
    cases Nat.eq_zero_or_pos m with
    | inl hm =>
      subst hm
      exact cb_halfOpen_succ_close cb t hst (by omega) (by omega)
    | inr hm =>
      obtain ⟨h1, h2, h3⟩ := cb_halfOpen_succ_stay cb t hst (by omega)
      exact ih _ t h1 (by rw [h2, h3]; omega) hm

/-- C6 (counterexample).  With the default configuration
(`max_probes = 3`), a breaker opened by 5 failures at clock 0 admits three
successful probes after the cooldown, yet is still HalfOpen, not Closed:
the probe admitted by the lazy Open-to-HalfOpen transition is not counted,
so `max_probes` admitted and successful probes do not close the circuit. -/
theorem C6_max_probes_successes_do_not_close :
    cbOpened.state = .stOpen ∧
    DefaultCircuitBreakerConfig.maxRequests = 3 ∧
    ((cbOpened.Call false tAfterCooldown tAfterCooldown).2 = .okR) ∧
    (((cbOpened.Call false tAfterCooldown tAfterCooldown).1.Call false
        tAfterCooldown tAfterCooldown).2 = .okR) ∧
    ((((cbOpened.Call false tAfterCooldown tAfterCooldown).1.Call false
        tAfterCooldown tAfterCooldown).1.Call false
        tAfterCooldown tAfterCooldown).2 = .okR) ∧
    (cbOpened.callsSucc tAfterCooldown 3).state = .stHalfOpen ∧
    (cbOpened.callsSucc tAfterCooldown 3).state ≠ .stClosed ∧
    (cbOpened.callsSucc tAfterCooldown 4).state = .stClosed := by
  refine ⟨by decide, by decide, by decide, by decide, by decide, by decide,
    by decide, by decide⟩

/-- C6 (amended).  The breaker's transitions, as implemented: (1) a closed
breaker admits every call, and a failure opens it exactly when the
consecutive-failure count reaches `max_failures`; (2) while open and within
the cooldown (measured from the last failure), every call is rejected
without running the dial and only the request/rejection counters move;
(3) after the cooldown the next call is admitted as a probe; (4) from open
after the cooldown, `max_probes + 1` consecutive successful calls close the
circuit (the lazily admitted transition probe is not counted toward
`max_probes`); (5) any admitted failure while half-open reopens it. -/
theorem C6_breaker_transitions :
    (∀ (cb : CircuitBreaker) (err : Bool) (t t' : ℤ), cb.state = .stClosed →
      ((cb.Call err t t').2 = if err then CallResult.failedR else .okR) ∧
      (((cb.Call true t t').1).state =
        if cb.config.maxFailures ≤ cb.failures + 1 then CBState.stOpen
        else .stClosed)) ∧
    (∀ (cb : CircuitBreaker) (err : Bool) (t t' : ℤ), cb.state = .stOpen →
      t - cb.lastFailureTime ≤ cb.config.timeout →
      cb.Call err t t' =
        ({ cb with totalRequests := cb.totalRequests + 1,
                   totalRejections := cb.totalRejections + 1 }, .rejected)) ∧
    (∀ (cb : CircuitBreaker) (err : Bool) (t t' : ℤ), cb.state = .stOpen →
      cb.config.timeout < t - cb.lastFailureTime →
      (cb.Call err t t').2 = if err then CallResult.failedR else .okR) ∧
    (∀ (cb : CircuitBreaker) (t : ℤ), cb.state = .stOpen →
      cb.config.timeout < t - cb.lastFailureTime →
      1 ≤ cb.config.maxRequests →
      (cb.callsSucc t (cb.config.maxRequests + 1)).state = .stClosed) ∧
    (∀ (cb : CircuitBreaker) (t t' : ℤ), cb.state = .stHalfOpen →
      cb.halfOpenRequests < cb.config.maxRequests →
      ((cb.Call true t t').1).state = .stOpen) := by
  refine ⟨?_, ?_, ?_, ?_, ?_⟩
  · intro cb err t t' hst
    constructor
    · unfold CircuitBreaker.Call CircuitBreaker.beforeRequest
      simp [hst]
    · unfold CircuitBreaker.Call CircuitBreaker.beforeRequest
        CircuitBreaker.afterRequest CircuitBreaker.onFailure CircuitBreaker.setState
      simp only [hst]
      split_ifs with h <;> simp_all
  · intro cb err t t' hst helap
    have h1 : ¬ cb.config.timeout < t - cb.lastFailureTime := by omega
    unfold CircuitBreaker.Call CircuitBreaker.beforeRequest
    simp [hst, h1]
  · intro cb err t t' hst helap
    unfold CircuitBreaker.Call CircuitBreaker.beforeRequest
    simp [hst, helap]
  · intro cb t hst helap hmax
    show (((cb.Call false t t).1).callsSucc t cb.config.maxRequests).state = .stClosed
    have h0 : ¬ cb.config.maxRequests ≤ 0 := by omega
    have hfirst :
        ((cb.Call false t t).1).state = .stHalfOpen ∧
        ((cb.Call false t t).1).halfOpenRequests = 0 ∧
        ((cb.Call false t t).1).config = cb.config := by
      unfold CircuitBreaker.Call CircuitBreaker.beforeRequest
        CircuitBreaker.afterRequest CircuitBreaker.onSuccess CircuitBreaker.setState
      simp [hst, helap, h0]
    obtain ⟨h1, h2, h3⟩ := hfirst
    exact cb_halfOpen_succ_closes cb.config.maxRequests _ t h1
      (by rw [h2, h3]; omega) hmax
  · intro cb t t' hst hadm
    have h1 : ¬ cb.config.maxRequests ≤ cb.halfOpenRequests := by omega
    unfold CircuitBreaker.Call CircuitBreaker.beforeRequest
      CircuitBreaker.afterRequest CircuitBreaker.onFailure CircuitBreaker.setState
    simp [hst, h1]

/-- C6 witness: each part of the amended statement at a concrete breaker. -/
theorem C6_breaker_transitions_witness :
    (((NewCircuitBreaker DefaultCircuitBreakerConfig 0).Call true 1 1).2 =
      CallResult.failedR) ∧
    (cbOpened.Call false 1 1 =
      ({ cbOpened with totalRequests := cbOpened.totalRequests + 1,
                       totalRejections := cbOpened.totalRejections + 1 },
        .rejected)) ∧
    ((cbOpened.Call false tAfterCooldown tAfterCooldown).2 = .okR) ∧
    ((cbOpened.callsSucc tAfterCooldown
      (DefaultCircuitBreakerConfig.maxRequests + 1)).state = .stClosed) ∧
    ((((cbOpened.Call false tAfterCooldown tAfterCooldown).1.Call true
        tAfterCooldown tAfterCooldown).1).state = .stOpen) := by
  refine ⟨?_, ?_, ?_, ?_, ?_⟩
  · have h := (C6_breaker_transitions.1 (NewCircuitBreaker DefaultCircuitBreakerConfig 0)
      true 1 1 (by decide)).1
    simpa using h
  · exact C6_breaker_transitions.2.1 cbOpened false 1 1 (by decide) (by decide)
  · have h := C6_breaker_transitions.2.2.1 cbOpened false tAfterCooldown
      tAfterCooldown (by decide) (by decide)
    simpa using h
  · exact C6_breaker_transitions.2.2.2.1 cbOpened tAfterCooldown (by decide)
      (by decide) (by decide)
  · exact C6_breaker_transitions.2.2.2.2
      ((cbOpened.Call false tAfterCooldown tAfterCooldown).1) tAfterCooldown
      tAfterCooldown (by decide) (by decide)

/-- Acquire never grows the idle queue and never changes its capacity. -/
theorem acquire_idle_le (bp : BackendPool) (d : Bool) :
    ((bp.Acquire d).1).idle.length ≤ bp.idle.length ∧
    ((bp.Acquire d).1).capacity = bp.capacity := by
  unfold BackendPool.Acquire BackendPool.createConnection
  by_cases hc : bp.closed
  · simp [hc]
  · cases h : bp.idle with
    | nil => by_cases hd : d <;> simp [hc, h, hd]
    | cons c rest =>
      by_cases hh : c.healthy
      · simp [hc, h, hh]
      · by_cases hd : d <;> simp [hc, h, hh, hd]

/-- Release keeps the idle queue within capacity and never changes the
capacity. -/
theorem release_idle_le (bp : BackendPool) (c : BackendConn)
    (h : bp.idle.length ≤ bp.capacity) :
    (bp.Release c).idle.length ≤ bp.capacity ∧
    (bp.Release c).capacity = bp.capacity := by
  unfold BackendPool.Release
  split_ifs with h1 h2 h3 <;> simp_all <;> omega

/-- C7 (counterexample).  With pool size 1, two acquires with no release in
between both succeed by dialing: the second neither blocks nor returns any
pool-exhausted error, and two backend connections are open at once, more
than the configured pool size. -/
theorem C7_acquire_dials_beyond_pool_size :
    (NewBackendPool 1).capacity = 1 ∧
    ((NewBackendPool 1).Acquire true).2 = .acquired ⟨1, false, true⟩ ∧
    (((NewBackendPool 1).Acquire true).1.Acquire true).2 =
      .acquired ⟨2, false, true⟩ ∧
    (((NewBackendPool 1).Acquire true).1.Acquire true).1.openCount = 2 ∧
    (((NewBackendPool 1).Acquire true).1.Acquire true).1.totalCreated = 2 := by
  refine ⟨by decide, by decide, by decide, by decide, by decide⟩

/-- C7 (amended).  The configured pool size bounds only the idle queue:
along any history of acquires and releases the idle queue never exceeds the
capacity; but when no idle connection is available, `Acquire` immediately
dials a new connection -- it never blocks and never returns a pool-exhausted
error -- so the number of open backend connections is not bounded by the
pool size. -/
theorem C7_pool_size_bounds_only_idle :
    (∀ (bp : BackendPool) (ops : List PoolOp), bp.idle.length ≤ bp.capacity →
      (bp.run ops).idle.length ≤ bp.capacity) ∧
    (∀ bp : BackendPool, bp.closed = false → bp.idle = [] →
      (bp.Acquire true).2 = .acquired ⟨bp.connCounter + 1, false, true⟩ ∧
      (bp.Acquire true).1.totalCreated = bp.totalCreated + 1 ∧
      (bp.Acquire true).1.openCount = bp.openCount + 1) := by
  constructor
  · intro bp ops
    induction ops generalizing bp with
    | nil => intro h; exact h
    | cons op t ih =>
      intro h
      cases op with
      | opAcquire d =>
        show (((bp.Acquire d).1).run t).idle.length ≤ bp.capacity
        have ha := acquire_idle_le bp d
        have := ih ((bp.Acquire d).1) (by rw [ha.2]; exact le_trans ha.1 h)
        rwa [ha.2] at this
      | opRelease c =>
        show ((bp.Release c).run t).idle.length ≤ bp.capacity
        have hr := release_idle_le bp c h
        have := ih (bp.Release c) (by rw [hr.2]; exact hr.1)
        rwa [hr.2] at this
  · intro bp hclosed hidle
    unfold BackendPool.Acquire BackendPool.createConnection
    rw [hidle]
    simp [hclosed]

/-- C7 witness: the idle bound along a concrete history, and the
dial-on-empty behaviour of a fresh pool. -/
theorem C7_pool_size_bounds_only_idle_witness :
    ((NewBackendPool 1).run
      [.opAcquire true, .opAcquire true,
        .opRelease ⟨1, false, true⟩, .opRelease ⟨2, false, true⟩]).idle.length ≤ 1 ∧
    ((NewBackendPool 1).Acquire true).2 = .acquired ⟨1, false, true⟩ := by
  constructor
  · exact C7_pool_size_bounds_only_idle.1 (NewBackendPool 1) _ (by decide)
  · exact (C7_pool_size_bounds_only_idle.2 (NewBackendPool 1) (by decide)
      (by decide)).1

/-- A batch whose first pending row has a failing UPDATE returns an error
with nothing processed and the table unchanged. -/
theorem processBatch_failing_head (eng : Engine) (r : ℤ) (cfg : BackfillConfig)
    (db : List BRow) (row : BRow) (rest : List BRow)
    (hf : db.filter (fun x => x.target.isNone) = row :: rest)
    (hrow : row.failing = true) (hbs : 1 ≤ cfg.batchSize) :
    processBatch eng r cfg db = (db, 0, true) := by
  unfold processBatch
  rw [hf]
  obtain ⟨k, hk⟩ : ∃ k, cfg.batchSize = k + 1 := ⟨cfg.batchSize - 1, by omega⟩
  rw [hk]
  simp [List.take_succ_cons, processRows, hrow]

/-- If the first pending row always fails, the worker's batch loop returns
the batch-processing error as soon as the error count reaches the retry
budget. -/
theorem startLoop_persistent_failure :
    ∀ (n fuel : ℕ) (eng : Engine) (r : ℤ) (cfg : BackfillConfig)
      (db : List BRow) (prog : BProgress) (row : BRow) (rest : List BRow),
      db.filter (fun x => x.target.isNone) = row :: rest →
      row.failing = true → 1 ≤ cfg.batchSize →
      (cfg.retryAttempts : ℤ) ≤ prog.errors + n → 1 ≤ n → n ≤ fuel →
      startLoop eng r cfg fuel db prog =
        some (.error "batch processing failed") := by
  intro n
  induction n with
  | zero => intro fuel eng r cfg db prog row rest _ _ _ _ h1 _; omega
  | succ m ih =>
    intro fuel eng r cfg db prog row rest hf hrow hbs hsum _ hfuel
    obtain ⟨f, rfl⟩ : ∃ f, fuel = f + 1 := ⟨fuel - 1, by omega⟩
    unfold startLoop
    simp only [processBatch_failing_head eng r cfg db row rest hf hrow hbs]
    by_cases hlt : prog.errors + 1 < (cfg.retryAttempts : ℤ)
    · rw [if_pos hlt]
      exact ih f eng r cfg db { prog with errors := prog.errors + 1 } row rest
        hf hrow hbs (by simp; omega) (by omega) (by omega)
    · rw [if_neg hlt]
      simp

/-- C8 (counterexample).  A single pending row whose UPDATE always fails --
no structural error, retry budget 2, plenty of fuel -- makes the whole job
return the batch-processing error: the engine has no per-row retry or
skip-and-continue path. -/
theorem C8_job_fails_on_poisoned_row :
    startLoop engineDemo 1000 backfillCfgDemo 10 dbPoisoned progRunning =
      some (.error "batch processing failed") ∧
    backfillCfgDemo.retryAttempts = 2 ∧
    dbPoisoned = [⟨1, 500000, none, true⟩] := by
  refine ⟨by rfl, by decide, by decide⟩

/-- C8 (amended).  A failing row UPDATE aborts the whole batch; `Start`
then increments the job-wide error count and retries the batch while
`errors < retry_attempts`, and once the error count reaches
`retry_attempts` the whole job terminates with an error -- so one
persistently failing row fails the entire job after `retry_attempts`
batch attempts. -/
theorem C8_retry_budget_is_job_wide (eng : Engine) (r : ℤ)
    (cfg : BackfillConfig) (db : List BRow) (prog : BProgress) (row : BRow)
    (rest : List BRow) (fuel : ℕ)
    (hf : db.filter (fun x => x.target.isNone) = row :: rest)
    (hrow : row.failing = true) (hbs : 1 ≤ cfg.batchSize)
    (herr : prog.errors = 0) (hra : 1 ≤ cfg.retryAttempts)
    (hfuel : cfg.retryAttempts ≤ fuel) :
    startLoop eng r cfg fuel db prog =
      some (.error "batch processing failed") := by
  exact startLoop_persistent_failure cfg.retryAttempts fuel eng r cfg db prog
    row rest hf hrow hbs (by rw [herr]; simp) hra hfuel

/-- C8 witness: the amended statement at the concrete poisoned table. -/
theorem C8_retry_budget_is_job_wide_witness :
    startLoop engineDemo 1000 backfillCfgDemo 5 dbPoisoned progRunning =
      some (.error "batch processing failed") := by
  exact C8_retry_budget_is_job_wide engineDemo 1000 backfillCfgDemo dbPoisoned
    progRunning ⟨1, 500000, none, true⟩ [] 5 (by decide) (by decide) (by decide)
    (by decide) (by decide) (by decide)

/-- C9.  Framer round-trip: for payloads up to `2^24 - 1` bytes, reading
back the bytes written by `WritePacket` returns the same sequence id and
payload with nothing left over; longer payloads make `WritePacket` return an
error. -/
theorem C9_packet_roundtrip :
    (∀ (s : Fin 256) (p : List (Fin 256)), p.length ≤ 16777215 →
      ∃ out, WritePacket s p = .ok out ∧
        ReadPacket out = some (⟨s, p⟩, [])) ∧
    (∀ (s : Fin 256) (p : List (Fin 256)), 16777215 < p.length →
      WritePacket s p = .error "packet too large") := by
  constructor
  · intro s p h
    have hw : WritePacket s p =
        .ok ([(⟨p.length % 256, by omega⟩ : Fin 256),
              ⟨p.length / 256 % 256, by omega⟩,
              ⟨p.length / 65536 % 256, by omega⟩, s] ++ p) := by
      unfold WritePacket
      rw [if_neg (by omega)]
    refine ⟨_, hw, ?_⟩
    unfold ReadPacket
    simp only [List.cons_append, List.nil_append]
    have hlen : p.length % 256 + 256 * (p.length / 256 % 256) +
        65536 * (p.length / 65536 % 256) = p.length := by omega
    rw [hlen, if_pos (le_refl _), List.take_length, List.drop_length]
  · intro s p h
    unfold WritePacket
    rw [if_pos h]

/-- C9 witness: round-trip at a concrete packet, and the error case at a
concrete over-long payload. -/
theorem C9_packet_roundtrip_witness :
    (∃ out, WritePacket (7 : Fin 256) [(1 : Fin 256), 2] = .ok out ∧
      ReadPacket out = some (⟨7, [1, 2]⟩, [])) ∧
    WritePacket (7 : Fin 256) (List.replicate 16777216 (0 : Fin 256)) =
      .error "packet too large" := by
  exact ⟨C9_packet_roundtrip.1 7 [1, 2] (by decide),
    C9_packet_roundtrip.2 7 (List.replicate 16777216 0)
      (by rw [List.length_replicate]; decide)⟩

/-- C10.  The circuit breaker's counters satisfy
`total_requests = total_successes + total_failures + total_rejections` at
creation, and the identity is preserved by every completed `Call`: the
request counter is incremented on every call, and exactly one of the
success, failure or rejection counters is incremented. -/
theorem C10_call_counters_partition :
    (∀ cfg now, (NewCircuitBreaker cfg now).countersConsistent) ∧
    (∀ (cb : CircuitBreaker) (errored : Bool) (tBefore tAfter : ℤ),
      cb.countersConsistent →
      ((cb.Call errored tBefore tAfter).1).countersConsistent) := by
  constructor
  · intro cfg now
    simp [NewCircuitBreaker, CircuitBreaker.countersConsistent]
  · intro cb errored tBefore tAfter h
    unfold CircuitBreaker.countersConsistent at *
    cases hst : cb.state <;> cases errored <;>
      simp_all [CircuitBreaker.Call, CircuitBreaker.beforeRequest,
        CircuitBreaker.afterRequest, CircuitBreaker.onSuccess,
        CircuitBreaker.onFailure, CircuitBreaker.setState] <;>
      first
      | omega
      | (split_ifs <;> simp_all <;> omega)

/-- C10 witness: the counter identity after two concrete calls. -/
theorem C10_call_counters_partition_witness :
    ((((NewCircuitBreaker DefaultCircuitBreakerConfig 0).Call true 1 1).1.Call
        false 2 2).1).countersConsistent := by
  exact C10_call_counters_partition.2 _ false 2 2
    (C10_call_counters_partition.2 _ true 1 1
      (C10_call_counters_partition.1 DefaultCircuitBreakerConfig 0))

end TransisiDB
